import Mathlib

/-!  Verification of the transponster payment engine (src/engine/mod.rs,
src/engine/models.rs, src/engine/error.rs).

The engine consumes a stream of transaction records (deposit, withdrawal,
dispute, resolve, chargeback) and maintains a per-client account ledger.
We embed the engine shallowly:

* `Decimal` models rust_decimal's `Decimal` as a signed mantissa and a scale
  in 0..=28 denoting m * 10^(-s).  `checked_add` / `checked_sub` follow the
  DecCalc port used by rust_decimal: the exact result at the operands' common
  scale is rescaled down with round-half-to-even when it exceeds the 96-bit
  mantissa, and `none` is returned only when even the scale-0 result
  overflows.  In particular MAX + 1e-28 = some MAX and 7e28 + 0.4 = some 7e28
  (rounded), not `none` and not exact.
* `HashMap<TransactionId, Transaction>` is modelled as an association list,
  `HashSet<TransactionId>` as a duplicate-free list, and the insertion-ordered
  `IndexMap<ClientId, AccountData>` as an association list in insertion order.
* Each handler `operation_*` is transcribed statement by statement; it returns
  the account state as mutated so far together with `some error` on failure
  (`none` models Rust's `Ok(())`), so that per-record atomicity is a theorem
  about the transcription rather than a modelling artifact.
-/

namespace Transponster

/-- Client identifier (`u16` in the source; only equality is used). -/
abbrev ClientId := Nat

/-- Transaction identifier (`u32` in the source; only equality is used). -/
abbrev TransactionId := Nat

/-- The largest 96-bit mantissa, 2^96 - 1. -/
def maxMantissa : ℕ := 79228162514264337593543950335

/-- Model of rust_decimal's `Decimal`: a signed mantissa `m` and a scale,
denoting the value m * 10^(-scale).  Well-formed values (the only ones the
engine ever builds) have `m.natAbs ≤ maxMantissa` and `scale ≤ 28`; the
arithmetic below preserves this. -/
structure Decimal where
  m : ℤ
  scale : ℕ
  deriving DecidableEq

/-- Model of `Decimal::ZERO`. -/
def Decimal.ZERO : Decimal := ⟨0, 0⟩

/-- The exact denoted value in units of 10^(-28) (exact whenever scale ≤ 28).
rust_decimal's comparison operators compare these denoted values. -/
def Decimal.units (d : Decimal) : ℤ := d.m * 10 ^ (28 - d.scale)

/-- Round n / d to the nearest natural, ties to even (d > 0). -/
def rhalfEvenNat (n d : ℕ) : ℕ :=
  let q := n / d
  let r := n % d
  if d < 2 * r then q + 1
  else if 2 * r < d then q
  else if q % 2 = 0 then q else q + 1

/-- Round n / d to the nearest integer, ties to even, by magnitude (DecCalc
rounds sign-magnitude representations). -/
def roundHalfEven (n : ℤ) (d : ℕ) : ℤ :=
  if 0 ≤ n then (rhalfEvenNat n.toNat d : ℤ)
  else -(rhalfEvenNat (-n).toNat d : ℤ)

/-- The DecCalc result-fitting step shared by addition and subtraction: the
exact mantissa `n` at scale `s` is divided by the smallest power of ten whose
correctly-rounded (half-to-even) quotient fits in 96 bits; `none` only when
even the scale-0 result overflows. -/
def fitScale (n : ℤ) (s : ℕ) : Option Decimal :=
  (List.range (s + 1)).findSome? (fun k =>
    let q := roundHalfEven n (10 ^ k)
    if q.natAbs ≤ maxMantissa then some ⟨q, s - k⟩ else none)

/-- Model of `Decimal::checked_add` (rust_decimal's DecCalc port): the exact
sum at the common scale, rescaled down with rounding when its mantissa
exceeds 96 bits, `none` only on scale-0 overflow. -/
def checked_add (a b : Decimal) : Option Decimal :=
  let s := max a.scale b.scale
  fitScale (a.m * 10 ^ (s - a.scale) + b.m * 10 ^ (s - b.scale)) s

/-- Model of `Decimal::checked_sub`: the same with the exact difference. -/
def checked_sub (a b : Decimal) : Option Decimal :=
  let s := max a.scale b.scale
  fitScale (a.m * 10 ^ (s - a.scale) - b.m * 10 ^ (s - b.scale)) s

/-- The five operation kinds of `models::OperationType`. -/
inductive OperationType
  | Deposit
  | Withdrawal
  | Dispute
  | Resolve
  | Chargeback
  deriving DecidableEq

/-- One input record, `models::Transaction`. -/
structure Transaction where
  operation : OperationType
  client_id : ClientId
  id : TransactionId
  amount : Option Decimal
  deriving DecidableEq

/-- The non-fatal per-record errors of `error::ProcessingError`. -/
inductive ProcessingError
  | NegativeAmount
  | Overflow (tx : TransactionId)
  | Underflow (tx : TransactionId)
  | DuplicatedTransaction (tx : TransactionId) (client : ClientId)
  | DuplicatedDispute (tx : TransactionId) (refTx : TransactionId) (client : ClientId)
  | AccountLocked (client : ClientId)
  | MissingAmount (tx : TransactionId)
  | InsufficientFounds (tx : TransactionId) (client : ClientId)
  | MissingTransaction (tx : TransactionId)
  | InvalidOperationUnderDispute (op : OperationType) (tx : TransactionId)
  | IncorrectResolve (op : OperationType) (tx : TransactionId)
  | IncorrectChargeback (op : OperationType) (tx : TransactionId)
  deriving DecidableEq

/-- Per-client state, `models::AccountData`.  `transactions` models the
`HashMap<TransactionId, Transaction>` store, `under_dispute` the
`HashSet<TransactionId>` of currently disputed ids. -/
structure AccountData where
  locked : Bool
  available : Decimal
  held : Decimal
  transactions : List (TransactionId × Transaction)
  under_dispute : List TransactionId
  deriving DecidableEq

/-- Model of `AccountData::default()`: zero balances, unlocked, empty stores. -/
def AccountData.default : AccountData :=
  { locked := false
    available := Decimal.ZERO
    held := Decimal.ZERO
    transactions := []
    under_dispute := [] }

/-- Model of `HashMap::get` on the transaction store. -/
def lookupTx : List (TransactionId × Transaction) → TransactionId → Option Transaction
  | [], _ => none
  | p :: rest, i => if p.1 = i then some p.2 else lookupTx rest i

/-- Model of `HashMap::contains_key` on the transaction store. -/
def containsKey (l : List (TransactionId × Transaction)) (i : TransactionId) : Bool :=
  (lookupTx l i).isSome

/-- Model of `HashSet::contains`. -/
def setContains (s : List TransactionId) (i : TransactionId) : Bool :=
  s.contains i

/-- Model of `HashSet::insert` (a set: inserting a member is a no-op). -/
def setInsert (s : List TransactionId) (i : TransactionId) : List TransactionId :=
  if s.contains i then s else i :: s

/-- Model of `HashSet::remove`. -/
def setRemove (s : List TransactionId) (i : TransactionId) : List TransactionId :=
  s.erase i

/-- Transcription of `operation_deposit` (mod.rs:96-124). -/
def operation_deposit (account : AccountData) (t : Transaction) :
    Option ProcessingError × AccountData :=
  if containsKey account.transactions t.id then
    (some (.DuplicatedTransaction t.id t.client_id), account)
  else
    match t.amount with
    | none => (some (.MissingAmount t.id), account)
    | some amount =>
      if amount.units < 0 then (some .NegativeAmount, account)
      else
        match checked_add account.available amount with
        | none => (some (.Overflow t.id), account)
        | some v =>
          (none, { account with
                    available := v
                    transactions := (t.id, t) :: account.transactions })

/-- Transcription of `operation_withdraw` (mod.rs:126-161). -/
def operation_withdraw (account : AccountData) (t : Transaction) :
    Option ProcessingError × AccountData :=
  if containsKey account.transactions t.id then
    (some (.DuplicatedTransaction t.id t.client_id), account)
  else
    match t.amount with
    | none => (some (.MissingAmount t.id), account)
    | some amount =>
      if amount.units < 0 then (some .NegativeAmount, account)
      else if account.available.units < amount.units then
        (some (.InsufficientFounds t.id t.client_id), account)
      else
        match checked_sub account.available amount with
        | none => (some (.Underflow t.id), account)
        | some v =>
          (none, { account with
                    available := v
                    transactions := (t.id, t) :: account.transactions })

/-- Transcription of `operation_dispute` (mod.rs:163-220).  The stored record
`dt` is the referenced transaction; in the Deposit branch both checked results
are computed before either field is assigned, exactly as in the source. -/
def operation_dispute (account : AccountData) (t : Transaction) :
    Option ProcessingError × AccountData :=
  match lookupTx account.transactions t.id with
  | none => (some (.MissingTransaction t.id), account)
  | some dt =>
    if setContains account.under_dispute dt.id then
      (some (.DuplicatedDispute t.id dt.id t.client_id), account)
    else
      match dt.amount with
      | none => (some (.MissingAmount t.id), account)
      | some disputed_amount =>
        match dt.operation with
        | .Deposit =>
          match checked_sub account.available disputed_amount with
          | none => (some (.Underflow t.id), account)
          | some new_available =>
            match checked_add account.held disputed_amount with
            | none => (some (.Overflow t.id), account)
            | some new_held =>
              (none, { account with
                        available := new_available
                        held := new_held
                        under_dispute := setInsert account.under_dispute dt.id })
        | .Withdrawal =>
          match checked_add account.held disputed_amount with
          | none => (some (.Overflow t.id), account)
          | some new_held =>
            (none, { account with
                      held := new_held
                      under_dispute := setInsert account.under_dispute dt.id })
        | _ => (some (.InvalidOperationUnderDispute t.operation t.id), account)

/-- Transcription of `operation_resolve` (mod.rs:222-269). -/
def operation_resolve (account : AccountData) (t : Transaction) :
    Option ProcessingError × AccountData :=
  match lookupTx account.transactions t.id with
  | none => (some (.MissingTransaction t.id), account)
  | some dt =>
    if ! setContains account.under_dispute dt.id then
      (some (.IncorrectResolve t.operation t.id), account)
    else
      match dt.amount with
      | none => (some (.MissingAmount t.id), account)
      | some disputed_amount =>
        match dt.operation with
        | .Deposit | .Withdrawal =>
          match checked_add account.available disputed_amount with
          | none => (some (.Overflow t.id), account)
          | some new_available =>
            match checked_sub account.held disputed_amount with
            | none => (some (.Underflow t.id), account)
            | some new_held =>
              (none, { account with
                        available := new_available
                        held := new_held
                        under_dispute := setRemove account.under_dispute dt.id })
        | _ => (some (.InvalidOperationUnderDispute t.operation t.id), account)

/-- Transcription of `operation_chargeback` (mod.rs:271-312).  On success it
removes the id from the dispute set and then locks the account. -/
def operation_chargeback (account : AccountData) (t : Transaction) :
    Option ProcessingError × AccountData :=
  match lookupTx account.transactions t.id with
  | none => (some (.MissingTransaction t.id), account)
  | some dt =>
    if ! setContains account.under_dispute dt.id then
      (some (.IncorrectChargeback t.operation t.id), account)
    else
      match dt.amount with
      | none => (some (.MissingAmount t.id), account)
      | some disputed_amount =>
        match dt.operation with
        | .Deposit | .Withdrawal =>
          match checked_sub account.held disputed_amount with
          | none => (some (.Underflow t.id), account)
          | some new_held =>
            (none, { account with
                      held := new_held
                      under_dispute := setRemove account.under_dispute dt.id
                      locked := true })
        | _ => (some (.InvalidOperationUnderDispute t.operation t.id), account)

/-- The ledger map, `models::AccountsMap = IndexMap<ClientId, AccountData>`,
as an association list in first-insertion order. -/
abbrev AccountsMap := List (ClientId × AccountData)

/-- Model of `IndexMap::get`. -/
def lookupAccount : AccountsMap → ClientId → Option AccountData
  | [], _ => none
  | p :: rest, c => if p.1 = c then some p.2 else lookupAccount rest c

/-- Model of `IndexMap::contains_key`. -/
def mapContains (m : AccountsMap) (c : ClientId) : Bool :=
  (lookupAccount m c).isSome

/-- The map half of `entry(client).or_default()`: IndexMap appends a missing
key at the end of the insertion order. -/
def ensureEntry (m : AccountsMap) (c : ClientId) : AccountsMap :=
  if mapContains m c then m else m ++ [(c, AccountData.default)]

/-- Writing back through the `&mut` entry: replace the (first) binding of `c`
in place, preserving insertion order. -/
def updateAccount : AccountsMap → ClientId → AccountData → AccountsMap
  | [], _, _ => []
  | p :: rest, c, a => if p.1 = c then (p.1, a) :: rest else p :: updateAccount rest c a

/-- The operation dispatch of `Engine::process_one` (mod.rs:84-90). -/
def runHandler (account : AccountData) (t : Transaction) :
    Option ProcessingError × AccountData :=
  match t.operation with
  | .Deposit => operation_deposit account t
  | .Withdrawal => operation_withdraw account t
  | .Dispute => operation_dispute account t
  | .Resolve => operation_resolve account t
  | .Chargeback => operation_chargeback account t

/-- Transcription of `Engine::process_one` (mod.rs:77-93): look up or lazily
create the account, reject everything if it is locked, otherwise dispatch. -/
def process_one (m : AccountsMap) (t : Transaction) :
    Option ProcessingError × AccountsMap :=
  let m1 := ensureEntry m t.client_id
  let account := (lookupAccount m1 t.client_id).getD AccountData.default
  if account.locked then (some (.AccountLocked t.client_id), m1)
  else
    let r := runHandler account t
    (r.1, updateAccount m1 t.client_id r.2)

/-- The record loop of `Engine::process_from_reader` (mod.rs:38-48): per-record
errors are logged and processing continues with the next record. -/
def processAll (m : AccountsMap) (ts : List Transaction) : AccountsMap :=
  ts.foldl (fun acc t => (process_one acc t).2) m

/-- One output row, `models::ReportRow`.  `total` is computed with plain
Decimal addition in the source, which rounds like `checked_add` and panics on
true overflow; `none` here models the panic (no row would be emitted). -/
structure ReportRow where
  client_id : ClientId
  available : Decimal
  held : Decimal
  total : Option Decimal
  locked : Bool
  deriving DecidableEq

/-- The row construction of `Engine::serialize_report_to_writer` (mod.rs:53-71):
one row per map entry, in map (= first-insertion) order. -/
def serialize_report (m : AccountsMap) : List ReportRow :=
  m.map (fun p =>
    { client_id := p.1
      available := p.2.available
      held := p.2.held
      total := checked_add p.2.available p.2.held
      locked := p.2.locked })

/-- The denoted value (in 10^(-28) units) of the amount stored for id `i` in
a transaction store (0 if absent or amount-less; on reachable states it is
always present, see `AccountInv`). -/
def storedAmount (l : List (TransactionId × Transaction)) (i : TransactionId) : ℤ :=
  match lookupTx l i with
  | some tx =>
    match tx.amount with
    | some d => d.units
    | none => 0
  | none => 0

/-- Records whose amount, when present, is a scale-0 decimal (a whole-unit
amount).  On such streams the engine's checked arithmetic is exact (scale-0
sums never rescale: they either fit or overflow), which is what the
scale-restricted invariants below rely on. -/
def scaleZeroAmount (t : Transaction) : Bool :=
  match t.amount with
  | some d => d.scale == 0
  | none => true

/-- The per-account invariant maintained by the engine on reachable states of
scale-0 streams: stored records carry their key as id, carry a non-negative
scale-0 amount, and are deposits or withdrawals; disputed ids reference
stored records, without duplicates; balances stay at scale 0; and `held` is
exactly the sum of the disputed stored amounts. -/
structure AccountInv (a : AccountData) : Prop where
  stored_id : ∀ p ∈ a.transactions, (p.2).id = p.1
  stored_amount_nonneg : ∀ p ∈ a.transactions,
    ∃ d, (p.2).amount = some d ∧ 0 ≤ d.m ∧ d.scale = 0
  stored_op : ∀ p ∈ a.transactions,
    (p.2).operation = OperationType.Deposit ∨ (p.2).operation = OperationType.Withdrawal
  dispute_mem : ∀ i ∈ a.under_dispute, (lookupTx a.transactions i).isSome = true
  dispute_nodup : a.under_dispute.Nodup
  available_scale : a.available.scale = 0
  held_scale : a.held.scale = 0
  held_eq : a.held.units = (a.under_dispute.map (storedAmount a.transactions)).sum

/-- All accounts of a ledger map satisfy the per-account invariant. -/
def MapInv (m : AccountsMap) : Prop := ∀ p ∈ m, AccountInv p.2

/-- The decimal value 1.0 as rust_decimal parses it: mantissa 10, scale 1. -/
def Decimal.one : Decimal := ⟨10, 1⟩

/-- The largest representable decimal value, MAX (scale 0). -/
def Decimal.maxValue : Decimal := ⟨79228162514264337593543950335, 0⟩

/-- The state of client 7 after depositing the maximal value (tx 1) and
disputing that deposit: its held balance sits at the top of the representable
range.  Used to exhibit dispute overflow right after a successful deposit. -/
def heldMaxAccount : AccountData :=
  { locked := false
    available := Decimal.ZERO
    held := Decimal.maxValue
    transactions := [(1, { operation := OperationType.Deposit, client_id := 7,
                           id := 1, amount := some Decimal.maxValue })]
    under_dispute := [1] }

/-- A deposit record. -/
def depositTx (c : ClientId) (i : TransactionId) (d : Decimal) : Transaction :=
  { operation := OperationType.Deposit, client_id := c, id := i, amount := some d }

/-- A withdrawal record. -/
def withdrawalTx (c : ClientId) (i : TransactionId) (d : Decimal) : Transaction :=
  { operation := OperationType.Withdrawal, client_id := c, id := i, amount := some d }

/-- A dispute record (no amount of its own). -/
def disputeTx (c : ClientId) (i : TransactionId) : Transaction :=
  { operation := OperationType.Dispute, client_id := c, id := i, amount := none }

/-- A resolve record (no amount of its own). -/
def resolveTx (c : ClientId) (i : TransactionId) : Transaction :=
  { operation := OperationType.Resolve, client_id := c, id := i, amount := none }

/-- A chargeback record (no amount of its own). -/
def chargebackTx (c : ClientId) (i : TransactionId) : Transaction :=
  { operation := OperationType.Chargeback, client_id := c, id := i, amount := none }

/-- The decimal value 3 (scale 0). -/
def dec3 : Decimal := ⟨3, 0⟩

/-- The decimal value 2 (scale 0). -/
def dec2 : Decimal := ⟨2, 0⟩

/-- The decimal value 1 (scale 0). -/
def dec1 : Decimal := ⟨1, 0⟩

/-- The smallest positive decimal, 1e-28 (mantissa 1, scale 28). -/
def decTiny : Decimal := ⟨1, 28⟩

/-- The decimal value 0.4 (mantissa 4, scale 1). -/
def decPoint4 : Decimal := ⟨4, 1⟩

/-- The decimal value 7e28 (scale 0), close below the representable maximum. -/
def dec7e28 : Decimal := ⟨70000000000000000000000000000, 0⟩

/-- The decimal value 7e28 + 1 (scale 0). -/
def dec7e28p1 : Decimal := ⟨70000000000000000000000000001, 0⟩

/-- Demo account: the state of client 10 after depositing 3 units (tx 1). -/
def demoDepositAccount : AccountData :=
  { locked := false
    available := dec3
    held := Decimal.ZERO
    transactions := [(1, depositTx 10 1 dec3)]
    under_dispute := [] }

/-- Demo account: the state of client 10 after depositing 3 units (tx 1) and
disputing that deposit. -/
def demoDisputedAccount : AccountData :=
  { locked := false
    available := Decimal.ZERO
    held := dec3
    transactions := [(1, depositTx 10 1 dec3)]
    under_dispute := [1] }

/-- Demo account: client 10 holds a stored withdrawal of 1 unit (tx 2). -/
def demoWithdrawnAccount : AccountData :=
  { locked := false
    available := dec1
    held := Decimal.ZERO
    transactions := [(2, withdrawalTx 10 2 dec1)]
    under_dispute := [] }

/-- Demo account: a locked account with zero balances. -/
def demoLockedAccount : AccountData :=
  { locked := true
    available := Decimal.ZERO
    held := Decimal.ZERO
    transactions := []
    under_dispute := [] }

/-- Demo account: held at 7e28 with a stored, not yet disputed, 0.4
withdrawal (tx 2).  Disputing that withdrawal rounds the held update away. -/
def heldBigAccount : AccountData :=
  { locked := false
    available := Decimal.ZERO
    held := dec7e28
    transactions := [(2, withdrawalTx 10 2 decPoint4)]
    under_dispute := [] }

/-- Demo account: held at 7e28 with the stored 0.4 withdrawal (tx 2) under
dispute.  Charging it back rounds the held update away. -/
def heldBigDisputedAccount : AccountData :=
  { locked := false
    available := Decimal.ZERO
    held := dec7e28
    transactions := [(2, withdrawalTx 10 2 decPoint4)]
    under_dispute := [2] }

/-- Demo account: balances 7e28 + 1 and 0.4, whose report total rounds the
0.4 away. -/
def nearMaxAccount : AccountData :=
  { locked := false
    available := dec7e28p1
    held := decPoint4
    transactions := []
    under_dispute := [] }

/-- The stream Deposit(MAX, tx 1), Dispute(1), Deposit(1e-28, tx 2),
Dispute(2), Resolve(1), Resolve(2) for client 1: the second dispute's held
update rounds (held stays MAX while the disputed sum is MAX + 1e-28), so the
final resolve drives held to -1e-28 with nothing left under dispute. -/
def roundingTrace : List Transaction :=
  [depositTx 1 1 Decimal.maxValue, disputeTx 1 1, depositTx 1 2 decTiny,
   disputeTx 1 2, resolveTx 1 1, resolveTx 1 2]

/-! Helper lemmas about the checked arithmetic.  On scale-0 operands the
DecCalc rescaling never fires: the sum either fits at scale 0 or overflows,
so the arithmetic is exact-or-none there. -/

theorem rhalfEvenNat_one (n : ℕ) : rhalfEvenNat n 1 = n := by
  simp [rhalfEvenNat, Nat.mod_one]

theorem roundHalfEven_one (n : ℤ) : roundHalfEven n 1 = n := by
  unfold roundHalfEven
  split
  · rw [rhalfEvenNat_one]
    omega
  · rw [rhalfEvenNat_one]
    omega

theorem fitScale_zero (n : ℤ) :
    fitScale n 0 = if n.natAbs ≤ maxMantissa then some ⟨n, 0⟩ else none := by
  have hr : List.range (0 + 1) = [0] := by decide
  simp only [fitScale, hr, List.findSome?_cons, List.findSome?_nil, pow_zero,
    roundHalfEven_one]
  by_cases h : n.natAbs ≤ maxMantissa
  · simp [h]
  · simp [h]

theorem checked_add_scale0 {a b : Decimal} (ha : a.scale = 0) (hb : b.scale = 0) :
    checked_add a b =
      if (a.m + b.m).natAbs ≤ maxMantissa then some ⟨a.m + b.m, 0⟩ else none := by
  unfold checked_add
  rw [ha, hb]
  simp [fitScale_zero]

theorem checked_sub_scale0 {a b : Decimal} (ha : a.scale = 0) (hb : b.scale = 0) :
    checked_sub a b =
      if (a.m - b.m).natAbs ≤ maxMantissa then some ⟨a.m - b.m, 0⟩ else none := by
  unfold checked_sub
  rw [ha, hb]
  simp [fitScale_zero]

theorem checked_add_s0_some {a b c : Decimal} (ha : a.scale = 0)
    (hb : b.scale = 0) (h : checked_add a b = some c) :
    c = ⟨a.m + b.m, 0⟩ ∧ (a.m + b.m).natAbs ≤ maxMantissa := by
  rw [checked_add_scale0 ha hb] at h
  split at h
  · cases h
    exact ⟨rfl, by assumption⟩
  · cases h

theorem checked_sub_s0_some {a b c : Decimal} (ha : a.scale = 0)
    (hb : b.scale = 0) (h : checked_sub a b = some c) :
    c = ⟨a.m - b.m, 0⟩ ∧ (a.m - b.m).natAbs ≤ maxMantissa := by
  rw [checked_sub_scale0 ha hb] at h
  split at h
  · cases h
    exact ⟨rfl, by assumption⟩
  · cases h

theorem checked_add_s0_of_le {a b : Decimal} (ha : a.scale = 0)
    (hb : b.scale = 0) (hle : (a.m + b.m).natAbs ≤ maxMantissa) :
    checked_add a b = some ⟨a.m + b.m, 0⟩ := by
  rw [checked_add_scale0 ha hb, if_pos hle]

theorem checked_sub_s0_of_le {a b : Decimal} (ha : a.scale = 0)
    (hb : b.scale = 0) (hle : (a.m - b.m).natAbs ≤ maxMantissa) :
    checked_sub a b = some ⟨a.m - b.m, 0⟩ := by
  rw [checked_sub_scale0 ha hb, if_pos hle]

theorem units_mk0 (n : ℤ) : (Decimal.mk n 0).units = n * 10 ^ 28 := by
  rfl

theorem units_s0 {d : Decimal} (h : d.scale = 0) : d.units = d.m * 10 ^ 28 := by
  unfold Decimal.units
  rw [h]

theorem units_nonneg_iff (d : Decimal) : 0 ≤ d.units ↔ 0 ≤ d.m := by
  unfold Decimal.units
  have hp : (0 : ℤ) < 10 ^ (28 - d.scale) := by positivity
  exact mul_nonneg_iff_of_pos_right hp

theorem units_checked_add_s0 {a b c : Decimal} (ha : a.scale = 0)
    (hb : b.scale = 0) (h : checked_add a b = some c) :
    c.units = a.units + b.units ∧ c.scale = 0 := by
  obtain ⟨hc, hle⟩ := checked_add_s0_some ha hb h
  subst hc
  refine ⟨?_, rfl⟩
  rw [units_mk0, units_s0 ha, units_s0 hb]
  ring

theorem units_checked_sub_s0 {a b c : Decimal} (ha : a.scale = 0)
    (hb : b.scale = 0) (h : checked_sub a b = some c) :
    c.units = a.units - b.units ∧ c.scale = 0 := by
  obtain ⟨hc, hle⟩ := checked_sub_s0_some ha hb h
  subst hc
  refine ⟨?_, rfl⟩
  rw [units_mk0, units_s0 ha, units_s0 hb]
  ring

theorem Decimal.eq_mk {d : Decimal} {n : ℤ} {s : ℕ} (h1 : d.m = n)
    (h2 : d.scale = s) : d = ⟨n, s⟩ := by
  cases d
  simp only at h1 h2
  rw [h1, h2]

theorem scaleZeroAmount_eq {t : Transaction} {d : Decimal}
    (h : scaleZeroAmount t = true) (hd : t.amount = some d) : d.scale = 0 := by
  unfold scaleZeroAmount at h
  rw [hd] at h
  simpa using h

/-! Helper lemmas about the transaction store and the dispute set. -/

theorem lookupTx_mem {l : List (TransactionId × Transaction)} {i : TransactionId}
    {tx : Transaction} (h : lookupTx l i = some tx) : (i, tx) ∈ l := by
  induction l with
  | nil => cases h
  | cons p rest ih =>
    unfold lookupTx at h
    split at h
    · cases h
      rename_i heq
      simp [← heq]
    · exact List.mem_cons_of_mem _ (ih h)

theorem lookupTx_cons_self {l : List (TransactionId × Transaction)}
    {i : TransactionId} {tx : Transaction} :
    lookupTx ((i, tx) :: l) i = some tx := by
  simp [lookupTx]

theorem lookupTx_cons_ne {l : List (TransactionId × Transaction)}
    {k i : TransactionId} {tx : Transaction} (h : k ≠ i) :
    lookupTx ((k, tx) :: l) i = lookupTx l i := by
  simp [lookupTx, h]

theorem containsKey_false_iff {l : List (TransactionId × Transaction)}
    {i : TransactionId} : containsKey l i = false ↔ lookupTx l i = none := by
  unfold containsKey
  cases lookupTx l i <;> simp

theorem storedAmount_cons_ne {l : List (TransactionId × Transaction)}
    {k i : TransactionId} {tx : Transaction} (h : k ≠ i) :
    storedAmount ((k, tx) :: l) i = storedAmount l i := by
  unfold storedAmount
  rw [lookupTx_cons_ne h]

theorem storedAmount_of_lookup {l : List (TransactionId × Transaction)}
    {i : TransactionId} {tx : Transaction} {d : Decimal}
    (h : lookupTx l i = some tx) (hd : tx.amount = some d) :
    storedAmount l i = d.units := by
  simp [storedAmount, h, hd]

theorem setContains_false_not_mem {s : List TransactionId} {i : TransactionId}
    (h : setContains s i = false) : i ∉ s := by
  unfold setContains at h
  simp at h
  exact h

theorem setContains_true_mem {s : List TransactionId} {i : TransactionId}
    (h : setContains s i = true) : i ∈ s := by
  unfold setContains at h
  simpa using h

theorem setInsert_of_not_mem {s : List TransactionId} {i : TransactionId}
    (h : s.contains i = false) : setInsert s i = i :: s := by
  unfold setInsert
  rw [h]
  rfl

theorem sum_map_erase {s : List TransactionId} {f : TransactionId → ℤ}
    {i : TransactionId} (h : i ∈ s) :
    ((s.erase i).map f).sum = (s.map f).sum - f i := by
  have hperm : s.Perm (i :: s.erase i) := List.perm_cons_erase h
  have hsum := (hperm.map f).sum_eq
  simp at hsum
  omega

/-! Helper lemmas about the ledger map. -/

theorem lookupAccount_mem {m : AccountsMap} {c : ClientId} {a : AccountData}
    (h : lookupAccount m c = some a) : (c, a) ∈ m := by
  induction m with
  | nil => cases h
  | cons p rest ih =>
    unfold lookupAccount at h
    split at h
    · cases h
      rename_i heq
      simp [← heq]
    · exact List.mem_cons_of_mem _ (ih h)

theorem lookupAccount_append_new {m : AccountsMap} {c : ClientId} {a : AccountData}
    (h : lookupAccount m c = none) : lookupAccount (m ++ [(c, a)]) c = some a := by
  induction m with
  | nil => simp [lookupAccount]
  | cons p rest ih =>
    unfold lookupAccount at h
    split at h
    · cases h
    · rename_i hne
      rw [List.cons_append]
      simp only [lookupAccount, if_neg hne]
      exact ih h

theorem lookupAccount_append_other {m : AccountsMap} {c c' : ClientId}
    {a : AccountData} (h : c' ≠ c) :
    lookupAccount (m ++ [(c', a)]) c = lookupAccount m c := by
  induction m with
  | nil => simp [lookupAccount, h]
  | cons p rest ih =>
    rw [List.cons_append]
    unfold lookupAccount
    split
    · rfl
    · exact ih

theorem lookupAccount_ensureEntry_self {m : AccountsMap} {c : ClientId} :
    lookupAccount (ensureEntry m c) c =
      some ((lookupAccount m c).getD AccountData.default) := by
  unfold ensureEntry mapContains
  cases hl : lookupAccount m c with
  | some a => simp [hl]
  | none => simp [hl, lookupAccount_append_new hl]

theorem lookupAccount_ensureEntry_other {m : AccountsMap} {c c' : ClientId}
    (h : c' ≠ c) : lookupAccount (ensureEntry m c') c = lookupAccount m c := by
  unfold ensureEntry
  split
  · rfl
  · exact lookupAccount_append_other h

theorem updateAccount_self {m : AccountsMap} {c : ClientId} {a : AccountData}
    (h : lookupAccount m c = some a) : updateAccount m c a = m := by
  induction m with
  | nil => rfl
  | cons p rest ih =>
    unfold lookupAccount at h
    unfold updateAccount
    split at h
    · cases h
      rename_i heq
      rw [if_pos heq]
    · rename_i hne
      rw [if_neg hne, ih h]

theorem lookupAccount_updateAccount_self {m : AccountsMap} {c : ClientId}
    {a b : AccountData} (h : lookupAccount m c = some b) :
    lookupAccount (updateAccount m c a) c = some a := by
  induction m with
  | nil => cases h
  | cons p rest ih =>
    unfold lookupAccount at h
    unfold updateAccount
    split at h
    · rename_i heq
      rw [if_pos heq]
      unfold lookupAccount
      rw [if_pos heq]
    · rename_i hne
      rw [if_neg hne]
      unfold lookupAccount
      rw [if_neg hne]
      exact ih h

theorem lookupAccount_updateAccount_other {m : AccountsMap} {c c' : ClientId}
    {a : AccountData} (h : c' ≠ c) :
    lookupAccount (updateAccount m c' a) c = lookupAccount m c := by
  induction m with
  | nil => rfl
  | cons p rest ih =>
    unfold updateAccount
    split
    · rename_i heq
      have hpc : ¬p.1 = c := by
        rw [heq]
        exact h
      simp only [lookupAccount, hpc, if_false, if_neg]
    · unfold lookupAccount
      split
      · rfl
      · exact ih

theorem mem_updateAccount {m : AccountsMap} {c : ClientId} {a : AccountData}
    {p : ClientId × AccountData} (h : p ∈ updateAccount m c a) :
    p.2 = a ∨ p ∈ m := by
  induction m with
  | nil => cases h
  | cons q rest ih =>
    unfold updateAccount at h
    split at h
    · rcases List.mem_cons.mp h with h1 | h1
      · left
        rw [h1]
      · right
        exact List.mem_cons_of_mem _ h1
    · rcases List.mem_cons.mp h with h1 | h1
      · right
        rw [h1]
        exact List.mem_cons_self _ _
      · rcases ih h1 with h2 | h2
        · left
          exact h2
        · right
          exact List.mem_cons_of_mem _ h2

/-! Per-record atomicity of each handler: a handler either succeeds or leaves
the account exactly as it was (mirroring that every early return in the source
happens before any field assignment). -/

theorem operation_deposit_atomic (a : AccountData) (t : Transaction) :
    (operation_deposit a t).1 = none ∨ (operation_deposit a t).2 = a := by
  unfold operation_deposit
  repeat' split
  all_goals simp

theorem operation_withdraw_atomic (a : AccountData) (t : Transaction) :
    (operation_withdraw a t).1 = none ∨ (operation_withdraw a t).2 = a := by
  unfold operation_withdraw
  repeat' split
  all_goals simp

theorem operation_dispute_atomic (a : AccountData) (t : Transaction) :
    (operation_dispute a t).1 = none ∨ (operation_dispute a t).2 = a := by
  unfold operation_dispute
  repeat' split
  all_goals simp

theorem operation_resolve_atomic (a : AccountData) (t : Transaction) :
    (operation_resolve a t).1 = none ∨ (operation_resolve a t).2 = a := by
  unfold operation_resolve
  repeat' split
  all_goals simp

theorem operation_chargeback_atomic (a : AccountData) (t : Transaction) :
    (operation_chargeback a t).1 = none ∨ (operation_chargeback a t).2 = a := by
  unfold operation_chargeback
  repeat' split
  all_goals simp

theorem runHandler_atomic (a : AccountData) (t : Transaction) :
    (runHandler a t).1 = none ∨ (runHandler a t).2 = a := by
  unfold runHandler
  cases t.operation
  · exact operation_deposit_atomic a t
  · exact operation_withdraw_atomic a t
  · exact operation_dispute_atomic a t
  · exact operation_resolve_atomic a t
  · exact operation_chargeback_atomic a t

theorem runHandler_error {a : AccountData} {t : Transaction} {e : ProcessingError}
    (h : (runHandler a t).1 = some e) : (runHandler a t).2 = a := by
  rcases runHandler_atomic a t with h1 | h1
  · rw [h] at h1
    cases h1
  · exact h1

/-! What a successful run of each handler looks like, read off the source. -/

theorem operation_deposit_ok {a : AccountData} {t : Transaction}
    (h : (operation_deposit a t).1 = none) :
    ∃ amt v, t.amount = some amt ∧ 0 ≤ amt.units ∧
      containsKey a.transactions t.id = false ∧
      checked_add a.available amt = some v ∧
      (operation_deposit a t).2 =
        { a with available := v, transactions := (t.id, t) :: a.transactions } := by
  cases hck : containsKey a.transactions t.id with
  | true => simp [operation_deposit, hck] at h
  | false =>
    cases hamt : t.amount with
    | none => simp [operation_deposit, hck, hamt] at h
    | some amt =>
      by_cases hneg : amt.units < 0
      · simp [operation_deposit, hck, hamt, hneg] at h
      · cases hadd : checked_add a.available amt with
        | none => simp [operation_deposit, hck, hamt, hneg, hadd] at h
        | some v =>
          exact ⟨amt, v, rfl, le_of_not_lt hneg, rfl, hadd,
            by simp [operation_deposit, hck, hamt, hneg, hadd]⟩

theorem operation_withdraw_ok {a : AccountData} {t : Transaction}
    (h : (operation_withdraw a t).1 = none) :
    ∃ amt v, t.amount = some amt ∧ 0 ≤ amt.units ∧
      amt.units ≤ a.available.units ∧
      containsKey a.transactions t.id = false ∧
      checked_sub a.available amt = some v ∧
      (operation_withdraw a t).2 =
        { a with available := v, transactions := (t.id, t) :: a.transactions } := by
  cases hck : containsKey a.transactions t.id with
  | true => simp [operation_withdraw, hck] at h
  | false =>
    cases hamt : t.amount with
    | none => simp [operation_withdraw, hck, hamt] at h
    | some amt =>
      by_cases hneg : amt.units < 0
      · simp [operation_withdraw, hck, hamt, hneg] at h
      · by_cases hins : a.available.units < amt.units
        · simp [operation_withdraw, hck, hamt, hneg, hins] at h
        · cases hsub : checked_sub a.available amt with
          | none => simp [operation_withdraw, hck, hamt, hneg, hins, hsub] at h
          | some v =>
            exact ⟨amt, v, rfl, le_of_not_lt hneg, le_of_not_lt hins, rfl, hsub,
              by simp [operation_withdraw, hck, hamt, hneg, hins, hsub]⟩

theorem operation_dispute_ok {a : AccountData} {t : Transaction}
    (h : (operation_dispute a t).1 = none) :
    ∃ dt d, lookupTx a.transactions t.id = some dt ∧
      setContains a.under_dispute dt.id = false ∧ dt.amount = some d ∧
      ((∃ na nh, dt.operation = OperationType.Deposit ∧
          checked_sub a.available d = some na ∧
          checked_add a.held d = some nh ∧
          (operation_dispute a t).2 =
            { a with available := na, held := nh,
                     under_dispute := setInsert a.under_dispute dt.id }) ∨
        (∃ nh, dt.operation = OperationType.Withdrawal ∧
          checked_add a.held d = some nh ∧
          (operation_dispute a t).2 =
            { a with held := nh,
                     under_dispute := setInsert a.under_dispute dt.id })) := by
  cases hlk : lookupTx a.transactions t.id with
  | none => simp [operation_dispute, hlk] at h
  | some dt =>
    cases hud : setContains a.under_dispute dt.id with
    | true => simp [operation_dispute, hlk, hud] at h
    | false =>
      cases hamt : dt.amount with
      | none => simp [operation_dispute, hlk, hud, hamt] at h
      | some d =>
        refine ⟨dt, d, rfl, hud, hamt, ?_⟩
        cases hop : dt.operation with
        | Deposit =>
          cases hsub : checked_sub a.available d with
          | none => simp [operation_dispute, hlk, hud, hamt, hop, hsub] at h
          | some na =>
            cases hadd : checked_add a.held d with
            | none => simp [operation_dispute, hlk, hud, hamt, hop, hsub, hadd] at h
            | some nh =>
              exact Or.inl ⟨na, nh, rfl, rfl, rfl,
                by simp [operation_dispute, hlk, hud, hamt, hop, hsub, hadd]⟩
        | Withdrawal =>
          cases hadd : checked_add a.held d with
          | none => simp [operation_dispute, hlk, hud, hamt, hop, hadd] at h
          | some nh =>
            exact Or.inr ⟨nh, rfl, rfl,
              by simp [operation_dispute, hlk, hud, hamt, hop, hadd]⟩
        | Dispute => simp [operation_dispute, hlk, hud, hamt, hop] at h
        | Resolve => simp [operation_dispute, hlk, hud, hamt, hop] at h
        | Chargeback => simp [operation_dispute, hlk, hud, hamt, hop] at h

theorem operation_resolve_ok {a : AccountData} {t : Transaction}
    (h : (operation_resolve a t).1 = none) :
    ∃ dt d na nh, lookupTx a.transactions t.id = some dt ∧
      setContains a.under_dispute dt.id = true ∧ dt.amount = some d ∧
      (dt.operation = OperationType.Deposit ∨
        dt.operation = OperationType.Withdrawal) ∧
      checked_add a.available d = some na ∧
      checked_sub a.held d = some nh ∧
      (operation_resolve a t).2 =
        { a with available := na, held := nh,
                 under_dispute := setRemove a.under_dispute dt.id } := by
  cases hlk : lookupTx a.transactions t.id with
  | none => simp [operation_resolve, hlk] at h
  | some dt =>
    cases hud : setContains a.under_dispute dt.id with
    | false => simp [operation_resolve, hlk, hud] at h
    | true =>
      cases hamt : dt.amount with
      | none => simp [operation_resolve, hlk, hud, hamt] at h
      | some d =>
        cases hop : dt.operation with
        | Deposit =>
          cases hadd : checked_add a.available d with
          | none => simp [operation_resolve, hlk, hud, hamt, hop, hadd] at h
          | some na =>
            cases hsub : checked_sub a.held d with
            | none => simp [operation_resolve, hlk, hud, hamt, hop, hadd, hsub] at h
            | some nh =>
              exact ⟨dt, d, na, nh, rfl, hud, hamt, Or.inl hop, hadd, hsub,
                by simp [operation_resolve, hlk, hud, hamt, hop, hadd, hsub]⟩
        | Withdrawal =>
          cases hadd : checked_add a.available d with
          | none => simp [operation_resolve, hlk, hud, hamt, hop, hadd] at h
          | some na =>
            cases hsub : checked_sub a.held d with
            | none => simp [operation_resolve, hlk, hud, hamt, hop, hadd, hsub] at h
            | some nh =>
              exact ⟨dt, d, na, nh, rfl, hud, hamt, Or.inr hop, hadd, hsub,
                by simp [operation_resolve, hlk, hud, hamt, hop, hadd, hsub]⟩
        | Dispute => simp [operation_resolve, hlk, hud, hamt, hop] at h
        | Resolve => simp [operation_resolve, hlk, hud, hamt, hop] at h
        | Chargeback => simp [operation_resolve, hlk, hud, hamt, hop] at h

theorem operation_chargeback_ok {a : AccountData} {t : Transaction}
    (h : (operation_chargeback a t).1 = none) :
    ∃ dt d nh, lookupTx a.transactions t.id = some dt ∧
      setContains a.under_dispute dt.id = true ∧ dt.amount = some d ∧
      (dt.operation = OperationType.Deposit ∨
        dt.operation = OperationType.Withdrawal) ∧
      checked_sub a.held d = some nh ∧
      (operation_chargeback a t).2 =
        { a with held := nh,
                 under_dispute := setRemove a.under_dispute dt.id,
                 locked := true } := by
  cases hlk : lookupTx a.transactions t.id with
  | none => simp [operation_chargeback, hlk] at h
  | some dt =>
    cases hud : setContains a.under_dispute dt.id with
    | false => simp [operation_chargeback, hlk, hud] at h
    | true =>
      cases hamt : dt.amount with
      | none => simp [operation_chargeback, hlk, hud, hamt] at h
      | some d =>
        cases hop : dt.operation with
        | Deposit =>
          cases hsub : checked_sub a.held d with
          | none => simp [operation_chargeback, hlk, hud, hamt, hop, hsub] at h
          | some nh =>
            exact ⟨dt, d, nh, rfl, hud, hamt, Or.inl hop, hsub,
              by simp [operation_chargeback, hlk, hud, hamt, hop, hsub]⟩
        | Withdrawal =>
          cases hsub : checked_sub a.held d with
          | none => simp [operation_chargeback, hlk, hud, hamt, hop, hsub] at h
          | some nh =>
            exact ⟨dt, d, nh, rfl, hud, hamt, Or.inr hop, hsub,
              by simp [operation_chargeback, hlk, hud, hamt, hop, hsub]⟩
        | Dispute => simp [operation_chargeback, hlk, hud, hamt, hop] at h
        | Resolve => simp [operation_chargeback, hlk, hud, hamt, hop] at h
        | Chargeback => simp [operation_chargeback, hlk, hud, hamt, hop] at h

/-! Preservation of the per-account invariant by each handler. -/

theorem accountInv_default : AccountInv AccountData.default := by
  constructor <;> simp [AccountData.default, Decimal.ZERO, Decimal.units]

theorem lookupTx_cons_isSome {l : List (TransactionId × Transaction)}
    {k i : TransactionId} {tx : Transaction} (h : (lookupTx l i).isSome = true) :
    (lookupTx ((k, tx) :: l) i).isSome = true := by
  by_cases hk : k = i <;> simp [lookupTx, hk, h]

theorem accountInv_deposit {a : AccountData} {t : Transaction} (ha : AccountInv a)
    (hop : t.operation = OperationType.Deposit)
    (hsz : scaleZeroAmount t = true) :
    AccountInv (operation_deposit a t).2 := by
  cases hres : (operation_deposit a t).1 with
  | some e =>
    rcases operation_deposit_atomic a t with h1 | h1
    · rw [hres] at h1
      cases h1
    · rw [h1]
      exact ha
  | none =>
    obtain ⟨amt, v, hamt, hnn, hck, hadd, hres2⟩ := operation_deposit_ok hres
    rw [hres2]
    have hlknone : lookupTx a.transactions t.id = none := containsKey_false_iff.mp hck
    have hs0 : amt.scale = 0 := scaleZeroAmount_eq hsz hamt
    have hv := checked_add_s0_some ha.available_scale hs0 hadd
    constructor
    · intro p hp
      rcases List.mem_cons.mp hp with h1 | h1
      · rw [h1]
      · exact ha.stored_id p h1
    · intro p hp
      rcases List.mem_cons.mp hp with h1 | h1
      · rw [h1]
        exact ⟨amt, hamt, (units_nonneg_iff amt).mp hnn, hs0⟩
      · exact ha.stored_amount_nonneg p h1
    · intro p hp
      rcases List.mem_cons.mp hp with h1 | h1
      · rw [h1]
        exact Or.inl hop
      · exact ha.stored_op p h1
    · intro i hi
      exact lookupTx_cons_isSome (ha.dispute_mem i hi)
    · exact ha.dispute_nodup
    · show v.scale = 0
      rw [hv.1]
    · exact ha.held_scale
    · have hcongr : ∀ i ∈ a.under_dispute,
          storedAmount ((t.id, t) :: a.transactions) i = storedAmount a.transactions i := by
        intro i hi
        have hne : t.id ≠ i := by
          intro he
          have hs := ha.dispute_mem i hi
          rw [← he, hlknone] at hs
          cases hs
        exact storedAmount_cons_ne hne
      show a.held.units =
        (a.under_dispute.map (storedAmount ((t.id, t) :: a.transactions))).sum
      rw [List.map_congr_left hcongr]
      exact ha.held_eq

theorem accountInv_withdraw {a : AccountData} {t : Transaction} (ha : AccountInv a)
    (hop : t.operation = OperationType.Withdrawal)
    (hsz : scaleZeroAmount t = true) :
    AccountInv (operation_withdraw a t).2 := by
  cases hres : (operation_withdraw a t).1 with
  | some e =>
    rcases operation_withdraw_atomic a t with h1 | h1
    · rw [hres] at h1
      cases h1
    · rw [h1]
      exact ha
  | none =>
    obtain ⟨amt, v, hamt, hnn, hle, hck, hsub, hres2⟩ := operation_withdraw_ok hres
    rw [hres2]
    have hlknone : lookupTx a.transactions t.id = none := containsKey_false_iff.mp hck
    have hs0 : amt.scale = 0 := scaleZeroAmount_eq hsz hamt
    have hv := checked_sub_s0_some ha.available_scale hs0 hsub
    constructor
    · intro p hp
      rcases List.mem_cons.mp hp with h1 | h1
      · rw [h1]
      · exact ha.stored_id p h1
    · intro p hp
      rcases List.mem_cons.mp hp with h1 | h1
      · rw [h1]
        exact ⟨amt, hamt, (units_nonneg_iff amt).mp hnn, hs0⟩
      · exact ha.stored_amount_nonneg p h1
    · intro p hp
      rcases List.mem_cons.mp hp with h1 | h1
      · rw [h1]
        exact Or.inr hop
      · exact ha.stored_op p h1
    · intro i hi
      exact lookupTx_cons_isSome (ha.dispute_mem i hi)
    · exact ha.dispute_nodup
    · show v.scale = 0
      rw [hv.1]
    · exact ha.held_scale
    · have hcongr : ∀ i ∈ a.under_dispute,
          storedAmount ((t.id, t) :: a.transactions) i = storedAmount a.transactions i := by
        intro i hi
        have hne : t.id ≠ i := by
          intro he
          have hs := ha.dispute_mem i hi
          rw [← he, hlknone] at hs
          cases hs
        exact storedAmount_cons_ne hne
      show a.held.units =
        (a.under_dispute.map (storedAmount ((t.id, t) :: a.transactions))).sum
      rw [List.map_congr_left hcongr]
      exact ha.held_eq

theorem accountInv_dispute {a : AccountData} {t : Transaction} (ha : AccountInv a) :
    AccountInv (operation_dispute a t).2 := by
  cases hres : (operation_dispute a t).1 with
  | some e =>
    rcases operation_dispute_atomic a t with h1 | h1
    · rw [hres] at h1
      cases h1
    · rw [h1]
      exact ha
  | none =>
    obtain ⟨dt, d, hlk, hud, hamt, hbr⟩ := operation_dispute_ok hres
    have hdtid : dt.id = t.id := ha.stored_id (t.id, dt) (lookupTx_mem hlk)
    have hnotmem : dt.id ∉ a.under_dispute := setContains_false_not_mem hud
    have hins : setInsert a.under_dispute dt.id = dt.id :: a.under_dispute :=
      setInsert_of_not_mem hud
    have hstored : storedAmount a.transactions dt.id = d.units := by
      rw [hdtid]
      exact storedAmount_of_lookup hlk hamt
    have hds0 : d.scale = 0 := by
      obtain ⟨d2, hd2, _, hd2s⟩ := ha.stored_amount_nonneg (t.id, dt) (lookupTx_mem hlk)
      rw [hamt] at hd2
      cases hd2
      exact hd2s
    have hdm : ∀ i ∈ dt.id :: a.under_dispute,
        (lookupTx a.transactions i).isSome = true := by
      intro i hi
      rcases List.mem_cons.mp hi with h1 | h1
      · rw [h1, hdtid, hlk]
        rfl
      · exact ha.dispute_mem i h1
    have hnd : (dt.id :: a.under_dispute).Nodup :=
      List.nodup_cons.mpr ⟨hnotmem, ha.dispute_nodup⟩
    rcases hbr with ⟨na, nh, hdep, hsub, hadd, hres2⟩ | ⟨nh, hwd, hadd, hres2⟩
    · have hna := units_checked_sub_s0 ha.available_scale hds0 hsub
      have hnh := units_checked_add_s0 ha.held_scale hds0 hadd
      rw [hres2]
      constructor
      · exact ha.stored_id
      · exact ha.stored_amount_nonneg
      · exact ha.stored_op
      · rw [hins]
        exact hdm
      · rw [hins]
        exact hnd
      · exact hna.2
      · exact hnh.2
      · show nh.units = ((setInsert a.under_dispute dt.id).map
            (storedAmount a.transactions)).sum
        rw [hins, List.map_cons, List.sum_cons, hstored, ← ha.held_eq, hnh.1]
        omega
    · have hnh := units_checked_add_s0 ha.held_scale hds0 hadd
      rw [hres2]
      constructor
      · exact ha.stored_id
      · exact ha.stored_amount_nonneg
      · exact ha.stored_op
      · rw [hins]
        exact hdm
      · rw [hins]
        exact hnd
      · exact ha.available_scale
      · exact hnh.2
      · show nh.units = ((setInsert a.under_dispute dt.id).map
            (storedAmount a.transactions)).sum
        rw [hins, List.map_cons, List.sum_cons, hstored, ← ha.held_eq, hnh.1]
        omega

theorem accountInv_resolve {a : AccountData} {t : Transaction} (ha : AccountInv a) :
    AccountInv (operation_resolve a t).2 := by
  cases hres : (operation_resolve a t).1 with
  | some e =>
    rcases operation_resolve_atomic a t with h1 | h1
    · rw [hres] at h1
      cases h1
    · rw [h1]
      exact ha
  | none =>
    obtain ⟨dt, d, na, nh, hlk, hud, hamt, hopb, hadd, hsub, hres2⟩ :=
      operation_resolve_ok hres
    have hdtid : dt.id = t.id := ha.stored_id (t.id, dt) (lookupTx_mem hlk)
    have hmemud : dt.id ∈ a.under_dispute := setContains_true_mem hud
    have hstored : storedAmount a.transactions dt.id = d.units := by
      rw [hdtid]
      exact storedAmount_of_lookup hlk hamt
    have hds0 : d.scale = 0 := by
      obtain ⟨d2, hd2, _, hd2s⟩ := ha.stored_amount_nonneg (t.id, dt) (lookupTx_mem hlk)
      rw [hamt] at hd2
      cases hd2
      exact hd2s
    have hna := units_checked_add_s0 ha.available_scale hds0 hadd
    have hnh := units_checked_sub_s0 ha.held_scale hds0 hsub
    rw [hres2]
    constructor
    · exact ha.stored_id
    · exact ha.stored_amount_nonneg
    · exact ha.stored_op
    · intro i hi
      exact ha.dispute_mem i (List.mem_of_mem_erase hi)
    · exact ha.dispute_nodup.erase dt.id
    · exact hna.2
    · exact hnh.2
    · show nh.units = ((setRemove a.under_dispute dt.id).map
          (storedAmount a.transactions)).sum
      unfold setRemove
      rw [sum_map_erase hmemud, hstored, ← ha.held_eq, hnh.1]

theorem accountInv_chargeback {a : AccountData} {t : Transaction} (ha : AccountInv a) :
    AccountInv (operation_chargeback a t).2 := by
  cases hres : (operation_chargeback a t).1 with
  | some e =>
    rcases operation_chargeback_atomic a t with h1 | h1
    · rw [hres] at h1
      cases h1
    · rw [h1]
      exact ha
  | none =>
    obtain ⟨dt, d, nh, hlk, hud, hamt, hopb, hsub, hres2⟩ :=
      operation_chargeback_ok hres
    have hdtid : dt.id = t.id := ha.stored_id (t.id, dt) (lookupTx_mem hlk)
    have hmemud : dt.id ∈ a.under_dispute := setContains_true_mem hud
    have hstored : storedAmount a.transactions dt.id = d.units := by
      rw [hdtid]
      exact storedAmount_of_lookup hlk hamt
    have hds0 : d.scale = 0 := by
      obtain ⟨d2, hd2, _, hd2s⟩ := ha.stored_amount_nonneg (t.id, dt) (lookupTx_mem hlk)
      rw [hamt] at hd2
      cases hd2
      exact hd2s
    have hnh := units_checked_sub_s0 ha.held_scale hds0 hsub
    rw [hres2]
    constructor
    · exact ha.stored_id
    · exact ha.stored_amount_nonneg
    · exact ha.stored_op
    · intro i hi
      exact ha.dispute_mem i (List.mem_of_mem_erase hi)
    · exact ha.dispute_nodup.erase dt.id
    · exact ha.available_scale
    · exact hnh.2
    · show nh.units = ((setRemove a.under_dispute dt.id).map
          (storedAmount a.transactions)).sum
      unfold setRemove
      rw [sum_map_erase hmemud, hstored, ← ha.held_eq, hnh.1]

theorem accountInv_runHandler {a : AccountData} {t : Transaction}
    (ha : AccountInv a) (hsz : scaleZeroAmount t = true) :
    AccountInv (runHandler a t).2 := by
  unfold runHandler
  cases hop : t.operation
  · exact accountInv_deposit ha hop hsz
  · exact accountInv_withdraw ha hop hsz
  · exact accountInv_dispute ha
  · exact accountInv_resolve ha
  · exact accountInv_chargeback ha

theorem mapInv_ensureEntry {m : AccountsMap} {c : ClientId} (hm : MapInv m) :
    MapInv (ensureEntry m c) := by
  unfold ensureEntry
  split
  · exact hm
  · intro p hp
    rcases List.mem_append.mp hp with h1 | h1
    · exact hm p h1
    · simp at h1
      rw [h1]
      exact accountInv_default

theorem mapInv_updateAccount {m : AccountsMap} {c : ClientId} {a : AccountData}
    (hm : MapInv m) (ha : AccountInv a) : MapInv (updateAccount m c a) := by
  intro p hp
  rcases mem_updateAccount hp with h1 | h1
  · rw [h1]
    exact ha
  · exact hm p h1

theorem mapInv_process_one {m : AccountsMap} (hm : MapInv m) (t : Transaction)
    (hsz : scaleZeroAmount t = true) : MapInv (process_one m t).2 := by
  have hm1 : MapInv (ensureEntry m t.client_id) := mapInv_ensureEntry hm
  have hacc : AccountInv
      ((lookupAccount (ensureEntry m t.client_id) t.client_id).getD
        AccountData.default) := by
    rw [lookupAccount_ensureEntry_self]
    simp only [Option.getD_some]
    cases hl : lookupAccount m t.client_id with
    | none => simpa using accountInv_default
    | some a => simpa using hm (t.client_id, a) (lookupAccount_mem hl)
  simp only [process_one]
  split
  · exact hm1
  · exact mapInv_updateAccount hm1 (accountInv_runHandler hacc hsz)

theorem mapInv_processAll {m : AccountsMap} (hm : MapInv m) (ts : List Transaction)
    (hs : ∀ t ∈ ts, scaleZeroAmount t = true) : MapInv (processAll m ts) := by
  induction ts generalizing m with
  | nil => exact hm
  | cons t ts ih =>
    show MapInv (List.foldl (fun acc t => (process_one acc t).2) m (t :: ts))
    rw [List.foldl_cons]
    exact ih (mapInv_process_one hm t (hs t (List.mem_cons_self t ts)))
      (fun t2 h2 => hs t2 (List.mem_cons_of_mem t h2))

theorem mapInv_nil : MapInv ([] : AccountsMap) := by
  intro p hp
  cases hp

theorem accountInv_held_nonneg {a : AccountData} (ha : AccountInv a) :
    0 ≤ a.held.units := by
  rw [ha.held_eq]
  apply List.sum_nonneg
  intro x hx
  rcases List.mem_map.mp hx with ⟨i, hi, rfl⟩
  have hs := ha.dispute_mem i hi
  cases hlk : lookupTx a.transactions i with
  | none =>
    rw [hlk] at hs
    cases hs
  | some tx =>
    obtain ⟨d, hd, hdn, hds⟩ := ha.stored_amount_nonneg (i, tx) (lookupTx_mem hlk)
    rw [storedAmount_of_lookup hlk hd]
    exact (units_nonneg_iff d).mpr hdn

/-! Behaviour of `process_one` on errors, on locked accounts, and on clients
other than the record's target. -/

theorem process_one_error {m : AccountsMap} {t : Transaction} {e : ProcessingError}
    (h : (process_one m t).1 = some e) :
    (process_one m t).2 = ensureEntry m t.client_id := by
  by_cases hlock : ((lookupAccount (ensureEntry m t.client_id) t.client_id).getD
      AccountData.default).locked
  · simp only [process_one, hlock, if_true]
  · simp only [process_one, hlock, if_false] at h ⊢
    rw [runHandler_error h]
    apply updateAccount_self
    rw [lookupAccount_ensureEntry_self]
    rfl

theorem ensureEntry_of_mem {m : AccountsMap} {c : ClientId} {a : AccountData}
    (hl : lookupAccount m c = some a) : ensureEntry m c = m := by
  unfold ensureEntry mapContains
  rw [hl]
  rfl

theorem process_one_locked {m : AccountsMap} {c : ClientId} {a : AccountData}
    {t : Transaction} (hl : lookupAccount m c = some a) (hlk : a.locked = true)
    (hc : t.client_id = c) :
    process_one m t = (some (ProcessingError.AccountLocked c), m) := by
  have hee : ensureEntry m c = m := ensureEntry_of_mem hl
  simp [process_one, hc, hee, hl, hlk]

theorem lookupAccount_process_one_other {m : AccountsMap} {t : Transaction}
    {c : ClientId} (hc : t.client_id ≠ c) :
    lookupAccount (process_one m t).2 c = lookupAccount m c := by
  simp only [process_one]
  split
  · exact lookupAccount_ensureEntry_other hc
  · rw [lookupAccount_updateAccount_other hc, lookupAccount_ensureEntry_other hc]

theorem lookupAccount_process_one_locked {m : AccountsMap} {c : ClientId}
    {a : AccountData} {t : Transaction} (hl : lookupAccount m c = some a)
    (hlk : a.locked = true) :
    lookupAccount (process_one m t).2 c = some a := by
  by_cases hc : t.client_id = c
  · rw [process_one_locked hl hlk hc]
    exact hl
  · rw [lookupAccount_process_one_other hc]
    exact hl

theorem lookupAccount_processAll_locked {m : AccountsMap} {c : ClientId}
    {a : AccountData} (hl : lookupAccount m c = some a) (hlk : a.locked = true)
    (ts : List Transaction) : lookupAccount (processAll m ts) c = some a := by
  induction ts generalizing m with
  | nil => exact hl
  | cons t ts ih =>
    show lookupAccount (processAll (process_one m t).2 ts) c = some a
    exact ih (lookupAccount_process_one_locked hl hlk)

/-! The claims. -/

/-- C1 counterexample: the stream Deposit(client 10, tx 1, 3), Withdrawal
(tx 2, 2), Dispute(tx 1) drives client 10's available balance to -2, so
available is not always non-negative; and on the rounding trace (Deposit(MAX),
Dispute, Deposit(1e-28), Dispute, Resolve, Resolve) even the held balance ends
at -1e-28, because the second dispute's held update was rounded away. -/
theorem c1_available_can_go_negative :
    ((lookupAccount (processAll []
        [depositTx 10 1 dec3, withdrawalTx 10 2 dec2, disputeTx 10 1]) 10).map
      (fun a => a.available.units)) = some (-2 * 10 ^ 28) ∧
    (-2 * 10 ^ 28 : ℤ) < 0 ∧
    ((lookupAccount (processAll [] roundingTrace) 1).map
      (fun a => a.held.units)) = some (-1) ∧
    (-1 : ℤ) < 0 := by
  refine ⟨by decide, by decide, by decide, by decide⟩

/-- C1 (amended): on every state reachable from a fresh engine by a stream of
whole-unit (scale-0) amounts - where the checked arithmetic is exact - every
account's held balance is non-negative.  Available can go negative, and held
itself can be driven to -1e-28 by rounding at the representable boundary, see
the counterexample. -/
theorem c1_held_nonneg_reachable (ts : List Transaction)
    (hs : ∀ t ∈ ts, scaleZeroAmount t = true) (c : ClientId)
    (a : AccountData) (h : lookupAccount (processAll [] ts) c = some a) :
    0 ≤ a.held.units := by
  have hinv := mapInv_processAll mapInv_nil ts hs (c, a) (lookupAccount_mem h)
  exact accountInv_held_nonneg hinv

/-- C1 witness: the amended theorem applied to the one-deposit stream. -/
theorem c1_held_nonneg_reachable_witness : 0 ≤ demoDepositAccount.held.units :=
  c1_held_nonneg_reachable [depositTx 10 1 dec3] (by decide) 10
    demoDepositAccount (by decide)

/-- C2: a record whose processing returns an error mutates nothing: the
resulting map is the input map with at most a fresh default account added for
a never-seen client, so every already-existing account (in particular the
targeted one) keeps its available, held, locked, transactions and
under_dispute fields exactly. -/
theorem c2_error_leaves_account_unchanged (m : AccountsMap) (t : Transaction)
    (e : ProcessingError) (h : (process_one m t).1 = some e) :
    (process_one m t).2 = ensureEntry m t.client_id :=
  process_one_error h

/-- C2 witness: a dispute of a never-stored transaction errs and mutates
nothing. -/
theorem c2_error_leaves_account_unchanged_witness :
    (process_one [(5, AccountData.default)] (disputeTx 5 1)).2 =
      ensureEntry [(5, AccountData.default)] 5 :=
  c2_error_leaves_account_unchanged [(5, AccountData.default)] (disputeTx 5 1)
    (ProcessingError.MissingTransaction 1) (by decide)

/-- C3: once an account is locked it stays exactly as it is: any further
record keeps its stored state identical (so locked never reverts to false and
available, held, transactions, under_dispute never change), any record
addressed to it fails with AccountLocked, and this persists over whole
streams. -/
theorem c3_locked_is_permanent (m : AccountsMap) (c : ClientId) (a : AccountData)
    (hl : lookupAccount m c = some a) (hlk : a.locked = true) :
    (∀ t, lookupAccount (process_one m t).2 c = some a) ∧
    (∀ t : Transaction, t.client_id = c →
      (process_one m t).1 = some (ProcessingError.AccountLocked c)) ∧
    (∀ ts, lookupAccount (processAll m ts) c = some a) := by
  refine ⟨fun t => lookupAccount_process_one_locked hl hlk, fun t hc => ?_,
    fun ts => lookupAccount_processAll_locked hl hlk ts⟩
  rw [process_one_locked hl hlk hc]

/-- C3 witness: the locked demo account rejects a further deposit and is left
untouched by it. -/
theorem c3_locked_is_permanent_witness :
    lookupAccount (process_one [(10, demoLockedAccount)] (depositTx 10 2 dec2)).2 10
        = some demoLockedAccount ∧
    (process_one [(10, demoLockedAccount)] (depositTx 10 2 dec2)).1 =
      some (ProcessingError.AccountLocked 10) := by
  have h := c3_locked_is_permanent [(10, demoLockedAccount)] 10 demoLockedAccount
    (by decide) (by decide)
  exact ⟨h.1 (depositTx 10 2 dec2), h.2.1 (depositTx 10 2 dec2) rfl⟩

/-- C4 counterexample: after the first four records of the rounding trace
(Deposit(MAX), Dispute, Deposit(1e-28), Dispute) the held balance is MAX while
the disputed stored amounts sum to MAX + 1e-28: the second dispute rounded the
held update away, so held is not the sum of the disputed amounts. -/
theorem c4_held_sum_can_diverge :
    ((lookupAccount (processAll [] (List.take 4 roundingTrace)) 1).map
      (fun a => (a.held.units,
        (a.under_dispute.map (storedAmount a.transactions)).sum))) =
      some (79228162514264337593543950335 * 10 ^ 28,
        79228162514264337593543950335 * 10 ^ 28 + 1) ∧
    (79228162514264337593543950335 * 10 ^ 28 : ℤ) ≠
      79228162514264337593543950335 * 10 ^ 28 + 1 := by
  refine ⟨by decide, by decide⟩

/-- C4 (amended): on every state reachable from a fresh engine by a stream of
whole-unit (scale-0) amounts - where the checked arithmetic is exact - each
account's held balance is exactly the sum of the stored amounts of its
currently disputed transactions; hence held is non-negative, and zero
whenever nothing is under dispute.  Near the 96-bit boundary with fractional
amounts the add/sub rescaling rounds and the equality can fail, see the
counterexample. -/
theorem c4_held_equals_disputed_sum (ts : List Transaction)
    (hs : ∀ t ∈ ts, scaleZeroAmount t = true) (c : ClientId)
    (a : AccountData) (h : lookupAccount (processAll [] ts) c = some a) :
    a.held.units = (a.under_dispute.map (storedAmount a.transactions)).sum ∧
    0 ≤ a.held.units ∧ (a.under_dispute = [] → a.held.units = 0) := by
  have hinv := mapInv_processAll mapInv_nil ts hs (c, a) (lookupAccount_mem h)
  refine ⟨hinv.held_eq, accountInv_held_nonneg hinv, fun he => ?_⟩
  rw [hinv.held_eq, he]
  rfl

/-- C4 witness: the theorem applied to the deposit-then-dispute stream, whose
resulting account holds 3 whole units against the single disputed deposit. -/
theorem c4_held_equals_disputed_sum_witness :
    demoDisputedAccount.held.units =
      (demoDisputedAccount.under_dispute.map
        (storedAmount demoDisputedAccount.transactions)).sum :=
  (c4_held_equals_disputed_sum [depositTx 10 1 dec3, disputeTx 10 1]
    (by decide) 10 demoDisputedAccount (by decide)).1

/-- C5 counterexample: with held at 7e28 and a stored 0.4 withdrawal, the
dispute succeeds but the held update is rescaled with rounding and leaves
held unchanged, so a successful dispute need not raise held by the disputed
amount. -/
theorem c5_dispute_increment_can_round_away :
    (operation_dispute heldBigAccount (disputeTx 10 2)).1 = none ∧
    ((operation_dispute heldBigAccount (disputeTx 10 2)).2).held.units =
      heldBigAccount.held.units ∧
    decPoint4.units ≠ 0 := by
  refine ⟨by decide, by decide, by decide⟩

/-- C5 (amended): a successful dispute referencing a stored withdrawal marks
the id disputed and leaves available, locked and the transaction store
untouched; when the held balance and the stored amount are scale-0 decimals,
so that no rescale-rounding can occur, it moreover raises held by exactly the
stored amount. -/
theorem c5_dispute_of_withdrawal_frame (a : AccountData) (t dt : Transaction)
    (d : Decimal) (hlk : lookupTx a.transactions t.id = some dt)
    (hop : dt.operation = OperationType.Withdrawal) (hd : dt.amount = some d)
    (hok : (operation_dispute a t).1 = none) :
    ((operation_dispute a t).2).under_dispute = dt.id :: a.under_dispute ∧
    ((operation_dispute a t).2).available = a.available ∧
    ((operation_dispute a t).2).locked = a.locked ∧
    ((operation_dispute a t).2).transactions = a.transactions ∧
    (a.held.scale = 0 → d.scale = 0 →
      ((operation_dispute a t).2).held.units = a.held.units + d.units) := by
  obtain ⟨dt', d', hlk', hud', hamt', hbr⟩ := operation_dispute_ok hok
  rw [hlk] at hlk'
  cases hlk'
  rw [hd] at hamt'
  cases hamt'
  rcases hbr with ⟨na, nh, hdep, hsub, hadd, hres2⟩ | ⟨nh, hwd, hadd, hres2⟩
  · rw [hop] at hdep
    cases hdep
  · rw [hres2]
    refine ⟨setInsert_of_not_mem hud', rfl, rfl, rfl, ?_⟩
    intro hhs hds
    exact (units_checked_add_s0 hhs hds hadd).1

/-- C5 witness: disputing the stored whole-unit withdrawal of the demo
account raises held by exactly 1. -/
theorem c5_dispute_of_withdrawal_frame_witness :
    ((operation_dispute demoWithdrawnAccount (disputeTx 10 2)).2).under_dispute =
      (withdrawalTx 10 2 dec1).id :: demoWithdrawnAccount.under_dispute ∧
    ((operation_dispute demoWithdrawnAccount (disputeTx 10 2)).2).available =
      demoWithdrawnAccount.available ∧
    ((operation_dispute demoWithdrawnAccount (disputeTx 10 2)).2).locked =
      demoWithdrawnAccount.locked ∧
    ((operation_dispute demoWithdrawnAccount (disputeTx 10 2)).2).transactions =
      demoWithdrawnAccount.transactions ∧
    (demoWithdrawnAccount.held.scale = 0 → dec1.scale = 0 →
      ((operation_dispute demoWithdrawnAccount (disputeTx 10 2)).2).held.units =
        demoWithdrawnAccount.held.units + dec1.units) :=
  c5_dispute_of_withdrawal_frame demoWithdrawnAccount (disputeTx 10 2)
    (withdrawalTx 10 2 dec1) dec1 (by decide) (by decide) (by decide) (by decide)

/-- C6 counterexample: with held at 7e28 and the stored 0.4 withdrawal under
dispute, the chargeback succeeds and locks the account but its held update is
rescaled with rounding and leaves held unchanged, so a successful chargeback
need not subtract the referenced amount from held. -/
theorem c6_chargeback_deduction_can_round_away :
    (operation_chargeback heldBigDisputedAccount (chargebackTx 10 2)).1 =
      none ∧
    ((operation_chargeback heldBigDisputedAccount
        (chargebackTx 10 2)).2).held.units =
      heldBigDisputedAccount.held.units ∧
    ((operation_chargeback heldBigDisputedAccount
        (chargebackTx 10 2)).2).locked = true ∧
    decPoint4.units ≠ 0 := by
  refine ⟨by decide, by decide, by decide, by decide⟩

/-- C6 (amended): a successful chargeback removes the id from the dispute set
and locks the account, leaving available and the store untouched; its held
update is the checked subtraction of the referenced stored amount, which
subtracts exactly that amount whenever held and the stored amount are scale-0
decimals (no rescale-rounding).  Concretely, Deposit(1, 1.0) → Dispute(1) →
Chargeback(1) from a fresh engine succeeds at every step and ends with
available = 0, held = 0, locked = true. -/
theorem c6_chargeback_locks_and_deducts (a : AccountData) (t dt : Transaction)
    (hlk : lookupTx a.transactions t.id = some dt)
    (hok : (operation_chargeback a t).1 = none) :
    (∃ d, dt.amount = some d ∧
      ((operation_chargeback a t).2).under_dispute =
        setRemove a.under_dispute dt.id ∧
      ((operation_chargeback a t).2).locked = true ∧
      ((operation_chargeback a t).2).available = a.available ∧
      ((operation_chargeback a t).2).transactions = a.transactions ∧
      (a.held.scale = 0 → d.scale = 0 →
        ((operation_chargeback a t).2).held.units =
          a.held.units - d.units)) ∧
    ((lookupAccount (processAll [] [depositTx 1 1 Decimal.one, disputeTx 1 1,
        chargebackTx 1 1]) 1).map
      (fun b => (b.available.units, b.held.units, b.locked))) =
      some (0, 0, true) ∧
    (process_one [] (depositTx 1 1 Decimal.one)).1 = none ∧
    (process_one (processAll [] [depositTx 1 1 Decimal.one])
      (disputeTx 1 1)).1 = none ∧
    (process_one (processAll [] [depositTx 1 1 Decimal.one, disputeTx 1 1])
      (chargebackTx 1 1)).1 = none := by
  obtain ⟨dt', d, nh, hlk', hud', hamt', hopb, hsub, hres2⟩ :=
    operation_chargeback_ok hok
  rw [hlk] at hlk'
  cases hlk'
  refine ⟨⟨d, hamt', ?_, ?_, ?_, ?_, ?_⟩, by decide, by decide, by decide,
    by decide⟩
  · rw [hres2]
  · rw [hres2]
  · rw [hres2]
  · rw [hres2]
  · intro hhs hds
    rw [hres2]
    exact (units_checked_sub_s0 hhs hds hsub).1

/-- C6 witness: the concrete chargeback round trip extracted by applying the
theorem to the demo disputed account. -/
theorem c6_chargeback_locks_and_deducts_witness :
    ((lookupAccount (processAll [] [depositTx 1 1 Decimal.one, disputeTx 1 1,
        chargebackTx 1 1]) 1).map
      (fun b => (b.available.units, b.held.units, b.locked))) =
      some (0, 0, true) :=
  (c6_chargeback_locks_and_deducts demoDisputedAccount (chargebackTx 10 1)
    (depositTx 10 1 dec3) (by decide) (by decide)).2.1

/-- C8: a deposit or withdrawal whose transaction id is already stored for the
(unlocked) targeted account fails with DuplicatedTransaction(id, client) and
leaves the ledger map exactly as it was. -/
theorem c8_duplicate_id_rejected (m : AccountsMap) (t : Transaction)
    (a : AccountData) (hl : lookupAccount m t.client_id = some a)
    (hlk : a.locked = false) (hck : containsKey a.transactions t.id = true)
    (hop : t.operation = OperationType.Deposit ∨
      t.operation = OperationType.Withdrawal) :
    process_one m t =
      (some (ProcessingError.DuplicatedTransaction t.id t.client_id), m) := by
  have hee : ensureEntry m t.client_id = m := ensureEntry_of_mem hl
  have hrh : runHandler a t =
      (some (.DuplicatedTransaction t.id t.client_id), a) := by
    rcases hop with hop | hop <;>
      simp [runHandler, hop, operation_deposit, operation_withdraw, hck]
  simp [process_one, hee, hl, hlk, hrh, updateAccount_self hl]

/-- C8 witness: re-depositing tx 1 on the demo account is rejected without any
mutation. -/
theorem c8_duplicate_id_rejected_witness :
    process_one [(10, demoDepositAccount)] (depositTx 10 1 dec2) =
      (some (ProcessingError.DuplicatedTransaction 1 10),
        [(10, demoDepositAccount)]) :=
  c8_duplicate_id_rejected [(10, demoDepositAccount)] (depositTx 10 1 dec2)
    demoDepositAccount (by decide) (by decide) (by decide) (Or.inl rfl)

/-- C9 counterexample: for the account with available = 7e28 + 1 and
held = 0.4, the emitted total is the Decimal sum 7e28 + 1 - the 0.4 is
rounded away by the rescale - so the total does not equal the exact
available + held. -/
theorem c9_total_can_round :
    (serialize_report [(1, nearMaxAccount)]).map (fun r => r.total) =
      [some ⟨70000000000000000000000000001, 0⟩] ∧
    (⟨70000000000000000000000000001, 0⟩ : Decimal).units ≠
      nearMaxAccount.available.units + nearMaxAccount.held.units := by
  refine ⟨by decide, by decide⟩

/-- C9 (amended): the report has exactly one row per ledger entry, pairwise
in the map's first-insertion order, and each row carries its account's client
id, balances, lock flag, and as total the Decimal sum available + held - the
rounding checked addition, whose `none` models the source's panic on true
overflow; for scale-0 balances whose sum fits the 96-bit mantissa the total
is the exact sum.  The report is a pure function of the map. -/
theorem c9_report_rows_match (m : AccountsMap) :
    List.Forall₂ (fun p r => r.client_id = p.1 ∧ r.available = p.2.available ∧
        r.held = p.2.held ∧ r.total = checked_add p.2.available p.2.held ∧
        r.locked = p.2.locked) m (serialize_report m) ∧
    (serialize_report m).length = m.length ∧
    (∀ p ∈ m, p.2.available.scale = 0 → p.2.held.scale = 0 →
      (p.2.available.m + p.2.held.m).natAbs ≤ maxMantissa →
      checked_add p.2.available p.2.held =
        some ⟨p.2.available.m + p.2.held.m, 0⟩ ∧
      (⟨p.2.available.m + p.2.held.m, 0⟩ : Decimal).units =
        p.2.available.units + p.2.held.units) := by
  refine ⟨?_, by simp [serialize_report], ?_⟩
  · induction m with
    | nil => exact List.Forall₂.nil
    | cons p rest ih => exact List.Forall₂.cons ⟨rfl, rfl, rfl, rfl, rfl⟩ ih
  · intro p hp h1 h2 h3
    refine ⟨checked_add_s0_of_le h1 h2 h3, ?_⟩
    rw [units_mk0, units_s0 h1, units_s0 h2]
    ring

/-- C9 witness: the row count of a one-account report. -/
theorem c9_report_rows_match_witness :
    (serialize_report [(10, demoDepositAccount)]).length =
      [(10, demoDepositAccount)].length :=
  (c9_report_rows_match [(10, demoDepositAccount)]).2.1

/-! Accounts, once created, are never removed from the map. -/

theorem lookupAccount_process_one_self_isSome (m : AccountsMap) (t : Transaction) :
    (lookupAccount (process_one m t).2 t.client_id).isSome = true := by
  simp only [process_one]
  split
  · rw [lookupAccount_ensureEntry_self]
    rfl
  · rw [lookupAccount_updateAccount_self lookupAccount_ensureEntry_self]
    rfl

theorem lookupAccount_process_one_isSome {m : AccountsMap} {c : ClientId}
    {t : Transaction} (h : (lookupAccount m c).isSome = true) :
    (lookupAccount (process_one m t).2 c).isSome = true := by
  by_cases hc : t.client_id = c
  · rw [← hc]
    exact lookupAccount_process_one_self_isSome m t
  · rw [lookupAccount_process_one_other hc]
    exact h

theorem lookupAccount_processAll_isSome {m : AccountsMap} {c : ClientId}
    (h : (lookupAccount m c).isSome = true) (ts : List Transaction) :
    (lookupAccount (processAll m ts) c).isSome = true := by
  induction ts generalizing m with
  | nil => exact h
  | cons t ts ih =>
    show (lookupAccount (processAll (process_one m t).2 ts) c).isSome = true
    exact ih (lookupAccount_process_one_isSome h)

/-- C10: the first record naming a fresh client creates that client's account;
if the record errs the account is exactly the default one (zero balances,
unlocked, empty stores); and the account stays in the map through any further
stream, hence contributes a row to the final report. -/
theorem c10_fresh_client_account_created (m : AccountsMap) (t : Transaction)
    (hnew : lookupAccount m t.client_id = none) :
    (∀ e, (process_one m t).1 = some e →
      lookupAccount (process_one m t).2 t.client_id = some AccountData.default) ∧
    (∀ ts, (lookupAccount (processAll (process_one m t).2 ts)
        t.client_id).isSome = true) ∧
    (∀ ts, ∃ r ∈ serialize_report (processAll (process_one m t).2 ts),
      r.client_id = t.client_id) := by
  have hisSome := lookupAccount_process_one_self_isSome m t
  refine ⟨?_, fun ts => lookupAccount_processAll_isSome hisSome ts, fun ts => ?_⟩
  · intro e he
    rw [process_one_error he, lookupAccount_ensureEntry_self, hnew]
    rfl
  · have h2 := lookupAccount_processAll_isSome hisSome ts
    cases hl : lookupAccount (processAll (process_one m t).2 ts) t.client_id with
    | none =>
      rw [hl] at h2
      cases h2
    | some b =>
      refine ⟨{ client_id := t.client_id, available := b.available,
                held := b.held, total := checked_add b.available b.held,
                locked := b.locked }, ?_, rfl⟩
      unfold serialize_report
      exact List.mem_map.mpr ⟨(t.client_id, b), lookupAccount_mem hl, rfl⟩

/-- C10 witness: a withdrawal by a never-seen client fails with
InsufficientFounds yet leaves that client's fresh default account in the map. -/
theorem c10_fresh_client_account_created_witness :
    lookupAccount (process_one [] (withdrawalTx 7 1 dec1)).2 7 =
      some AccountData.default :=
  (c10_fresh_client_account_created [] (withdrawalTx 7 1 dec1) (by decide)).1
    (ProcessingError.InsufficientFounds 1 7) (by decide)

/-! Forward computation of a successful dispute (Deposit branch) and a
successful resolve, given the value of every scrutinee along the way. -/

theorem operation_dispute_deposit_eq {a : AccountData} {t dt : Transaction}
    {d na nh : Decimal}
    (hlk : lookupTx a.transactions t.id = some dt)
    (hud : setContains a.under_dispute dt.id = false)
    (hamt : dt.amount = some d)
    (hop : dt.operation = OperationType.Deposit)
    (hsub : checked_sub a.available d = some na)
    (hadd : checked_add a.held d = some nh) :
    operation_dispute a t =
      (none, { a with
                available := na
                held := nh
                under_dispute := setInsert a.under_dispute dt.id }) := by
  simp [operation_dispute, hlk, hud, hamt, hop, hsub, hadd]

theorem operation_resolve_eq {a : AccountData} {t dt : Transaction}
    {d na nh : Decimal}
    (hlk : lookupTx a.transactions t.id = some dt)
    (hud : setContains a.under_dispute dt.id = true)
    (hamt : dt.amount = some d)
    (hop : dt.operation = OperationType.Deposit ∨
      dt.operation = OperationType.Withdrawal)
    (hadd : checked_add a.available d = some na)
    (hsub : checked_sub a.held d = some nh) :
    operation_resolve a t =
      (none, { a with
                available := na
                held := nh
                under_dispute := setRemove a.under_dispute dt.id }) := by
  rcases hop with hop | hop <;>
    simp [operation_resolve, hlk, hud, hamt, hop, hadd, hsub]

/-- C7 counterexample: on the reachable state where client 7's held balance
sits at the representable maximum, a further deposit of MAX (tx 2) succeeds
but the subsequent dispute of it fails with Overflow (MAX + MAX overflows
even at scale 0), so a successful deposit is not always
disputable-and-resolvable. -/
theorem c7_dispute_can_fail_after_deposit :
    (operation_deposit heldMaxAccount (depositTx 7 2 Decimal.maxValue)).1 =
      none ∧
    (operation_dispute (operation_deposit heldMaxAccount
        (depositTx 7 2 Decimal.maxValue)).2 (disputeTx 7 2)).1 =
      some (ProcessingError.Overflow 2) := by
  constructor <;> decide

/-- C7 (amended): if a deposit of a scale-0 amount amt succeeds on an account
with well-formed scale-0 balances that does not already mark that id
disputed, and held + amt fits the 96-bit mantissa, then disputing and then
resolving that deposit both succeed and the resolve returns the account to
exactly the post-deposit state. -/
theorem c7_dispute_resolve_roundtrip (a : AccountData) (t : Transaction)
    (amt : Decimal) (c1 c2 : ClientId)
    (hop : t.operation = OperationType.Deposit)
    (hamt : t.amount = some amt)
    (hsz : amt.scale = 0)
    (havs : a.available.scale = 0)
    (hhs : a.held.scale = 0)
    (hab : a.available.m.natAbs ≤ maxMantissa)
    (hhb : a.held.m.natAbs ≤ maxMantissa)
    (hnm : t.id ∉ a.under_dispute)
    (hfit : (a.held.m + amt.m).natAbs ≤ maxMantissa)
    (hok : (operation_deposit a t).1 = none) :
    (operation_dispute (operation_deposit a t).2 (disputeTx c1 t.id)).1 = none ∧
    (operation_resolve (operation_dispute (operation_deposit a t).2
        (disputeTx c1 t.id)).2 (resolveTx c2 t.id)).1 = none ∧
    (operation_resolve (operation_dispute (operation_deposit a t).2
        (disputeTx c1 t.id)).2 (resolveTx c2 t.id)).2 =
      (operation_deposit a t).2 := by
  obtain ⟨amt', v, hamt', hnn, hck, hadd, hres2⟩ := operation_deposit_ok hok
  rw [hamt] at hamt'
  cases hamt'
  obtain ⟨hveq, hvle⟩ := checked_add_s0_some havs hsz hadd
  subst hveq
  have hudf : setContains a.under_dispute t.id = false := by
    simp [setContains]
    exact hnm
  have hins : setInsert a.under_dispute t.id = t.id :: a.under_dispute :=
    setInsert_of_not_mem hudf
  have hlk1 : lookupTx ((t.id, t) :: a.transactions) t.id = some t :=
    lookupTx_cons_self
  have hud2 : setContains (setInsert a.under_dispute t.id) t.id = true := by
    rw [hins]
    simp [setContains]
  have hsub1 : checked_sub (⟨a.available.m + amt.m, 0⟩ : Decimal) amt =
      some ⟨a.available.m + amt.m - amt.m, 0⟩ := by
    apply checked_sub_s0_of_le rfl hsz
    show (a.available.m + amt.m - amt.m).natAbs ≤ maxMantissa
    have he : a.available.m + amt.m - amt.m = a.available.m := by ring
    rw [he]
    exact hab
  have hadd1 : checked_add a.held amt = some ⟨a.held.m + amt.m, 0⟩ :=
    checked_add_s0_of_le hhs hsz hfit
  have hadd2 : checked_add (⟨a.available.m + amt.m - amt.m, 0⟩ : Decimal) amt =
      some ⟨a.available.m + amt.m - amt.m + amt.m, 0⟩ := by
    apply checked_add_s0_of_le rfl hsz
    show (a.available.m + amt.m - amt.m + amt.m).natAbs ≤ maxMantissa
    have he : a.available.m + amt.m - amt.m + amt.m = a.available.m + amt.m := by
      ring
    rw [he]
    exact hvle
  have hsub2 : checked_sub (⟨a.held.m + amt.m, 0⟩ : Decimal) amt =
      some ⟨a.held.m + amt.m - amt.m, 0⟩ := by
    apply checked_sub_s0_of_le rfl hsz
    show (a.held.m + amt.m - amt.m).natAbs ≤ maxMantissa
    have he : a.held.m + amt.m - amt.m = a.held.m := by ring
    rw [he]
    exact hhb
  rw [hres2]
  have hdisp := @operation_dispute_deposit_eq
    { a with available := ⟨a.available.m + amt.m, 0⟩,
             transactions := (t.id, t) :: a.transactions }
    (disputeTx c1 t.id) t amt
    ⟨a.available.m + amt.m - amt.m, 0⟩ ⟨a.held.m + amt.m, 0⟩
    hlk1 hudf hamt hop hsub1 hadd1
  have hres := @operation_resolve_eq
    { a with available := ⟨a.available.m + amt.m - amt.m, 0⟩,
             held := ⟨a.held.m + amt.m, 0⟩,
             transactions := (t.id, t) :: a.transactions,
             under_dispute := setInsert a.under_dispute t.id }
    (resolveTx c2 t.id) t amt
    ⟨a.available.m + amt.m - amt.m + amt.m, 0⟩ ⟨a.held.m + amt.m - amt.m, 0⟩
    hlk1 hud2 hamt (Or.inl hop) hadd2 hsub2
  have hstep2 : operation_resolve (operation_dispute
      { a with available := ⟨a.available.m + amt.m, 0⟩,
               transactions := (t.id, t) :: a.transactions }
      (disputeTx c1 t.id)).2 (resolveTx c2 t.id) =
      (none, { a with
                available := ⟨a.available.m + amt.m - amt.m + amt.m, 0⟩,
                held := ⟨a.held.m + amt.m - amt.m, 0⟩,
                transactions := (t.id, t) :: a.transactions,
                under_dispute :=
                  setRemove (setInsert a.under_dispute t.id) t.id }) := by
    rw [hdisp]
    exact hres
  refine ⟨?_, ?_, ?_⟩
  · rw [hdisp]
  · rw [hstep2]
  · rw [hstep2]
    show ({ a with
             available := ⟨a.available.m + amt.m - amt.m + amt.m, 0⟩
             held := ⟨a.held.m + amt.m - amt.m, 0⟩
             transactions := (t.id, t) :: a.transactions
             under_dispute := setRemove (setInsert a.under_dispute t.id) t.id } :
           AccountData) =
        { a with available := ⟨a.available.m + amt.m, 0⟩,
                 transactions := (t.id, t) :: a.transactions }
    have hava : (⟨a.available.m + amt.m - amt.m + amt.m, 0⟩ : Decimal) =
        (⟨a.available.m + amt.m, 0⟩ : Decimal) := by
      have he : a.available.m + amt.m - amt.m + amt.m = a.available.m + amt.m := by
        ring
      rw [he]
    have hhld : (⟨a.held.m + amt.m - amt.m, 0⟩ : Decimal) = a.held := by
      have he : a.held.m + amt.m - amt.m = a.held.m := by ring
      rw [he]
      exact (Decimal.eq_mk rfl hhs).symm
    have hrem : setRemove (setInsert a.under_dispute t.id) t.id =
        a.under_dispute := by
      rw [hins]
      simp [setRemove]
    rw [hava, hhld, hrem]

/-- C7 witness: the amended round trip on a fresh account with a whole-unit
deposit. -/
theorem c7_dispute_resolve_roundtrip_witness :
    (operation_dispute (operation_deposit AccountData.default
        (depositTx 3 1 dec1)).2 (disputeTx 3 1)).1 = none ∧
    (operation_resolve (operation_dispute (operation_deposit AccountData.default
        (depositTx 3 1 dec1)).2 (disputeTx 3 1)).2 (resolveTx 3 1)).1 = none ∧
    (operation_resolve (operation_dispute (operation_deposit AccountData.default
        (depositTx 3 1 dec1)).2 (disputeTx 3 1)).2 (resolveTx 3 1)).2 =
      (operation_deposit AccountData.default (depositTx 3 1 dec1)).2 :=
  c7_dispute_resolve_roundtrip AccountData.default (depositTx 3 1 dec1) dec1 3 3
    rfl rfl rfl rfl rfl (by decide) (by decide) (by decide) (by decide)
    (by decide)

end Transponster
